import Mathlib

/-!
Shallow embedding of the N+1-query demo repository (Go) for verification.

The repository fetches Order/OrderDetail and Employee/Department aggregates
from an Oracle database with three strategies per domain: a naive per-parent
loop (`ProblemOrderRepository.GetOrdersWithDetails`,
`ProblemEmployeeRepository.GetEmployeesWithDepartment`), a single LEFT JOIN
query (`GetOrdersWithDetailsJoin`, `GetEmployeesWithDepartmentJoin`), and a
two-query batch using an IN clause (`GetOrdersWithDetailsBatch`,
`GetEmployeesWithDepartmentBatch`).

Modelling conventions:
* Database tables are lists of rows.  A query with an ORDER BY clause is
  modelled as `List.insertionSort` of a `List.filter` of the table; a query
  without ORDER BY returns rows in table order.
* Go slices whose nil-ness is observable are modelled as
  `Option (List α)`: `none` is a nil slice, `some l` a non-nil slice with
  elements `l`.  Go's `append` is `goAppend1` (appending to nil yields a
  non-nil slice), a slice built by a scan loop from a nil `var` is
  `goOfList`.
* `NUMBER(p,2)` monetary columns and dates are carried opaquely (`Int`
  cents, `String` dates); the code performs no arithmetic on them.
* The Go map in `GetOrdersWithDetailsJoin` is modelled by an
  insertion-ordered association list (`joinMapOf`) together with an explicit
  iteration order `iter` (Go randomizes map iteration order; any permutation
  of the key set is a possible iteration order, captured by
  `IsMapIterOrder`).
* Fallible operations return `Except String α`; `Except.error e` models the
  Go path `return nil, err` (no result accompanies an error).  Row scans of
  NOT NULL columns cannot fail and are modelled total; `departments.location`
  is nullable in the DDL, and scanning a NULL location into a Go `string`
  destination fails, modelled by the `.error` branches below.  Driver-level
  failure of the one query the naive order strategy repeats per parent is
  modelled by the oracle `OrderDB.qfail` (the other queries of the demo are
  modelled as always reachable).
-/

namespace NPlusOneDemo

/-- Go slice viewed as `Option (List α)`: `goToList` reads its elements
(nil and empty slices both read as `[]`). -/
def goToList {α : Type} : Option (List α) → List α
  | none => []
  | some l => l

/-- Go `append(s, x)` on a possibly-nil slice: always yields a non-nil slice. -/
def goAppend1 {α : Type} (s : Option (List α)) (x : α) : Option (List α) :=
  some (goToList s ++ [x])

/-- Result of a Go scan loop that appends each row to a `var xs []T`
(nil when the result set is empty, non-nil otherwise). -/
def goOfList {α : Type} : List α → Option (List α)
  | [] => none
  | x :: l => some (x :: l)

/-- Row of the `orders` table / Go `models.Order` (all selected columns NOT NULL;
`TotalAmount` is a `NUMBER(12,2)` carried in cents). -/
structure Order where
  OrderID : Int
  CustomerID : Int
  OrderDate : String
  TotalAmount : Int
deriving DecidableEq

/-- Row of the `order_details` table / Go `models.OrderDetail` (all selected
columns NOT NULL per the DDL; `UnitPrice` carried in cents). -/
structure OrderDetail where
  DetailID : Int
  OrderID : Int
  ProductID : Int
  Quantity : Int
  UnitPrice : Int
deriving DecidableEq

/-- Go `models.OrderWithDetails`; `Details` is a possibly-nil Go slice. -/
structure OrderWithDetails where
  Order : Order
  Details : Option (List OrderDetail)
deriving DecidableEq

/-- Database state seen by the order repositories.  `recent days date`
models the predicate of the SQL clause
`order_date >= SYSDATE - :days` (real time is external to the model).
`qfail oid` injects a driver-level failure (connectivity error text) for
the per-order details query `GetDetailsByOrderID` bound to `oid`;
`fun _ => none` is a fault-free database. -/
structure OrderDB where
  orders : List Order
  order_details : List OrderDetail
  recent : Int → String → Bool
  qfail : Int → Option String

/-- Comparison used by `ORDER BY order_id` on the `orders` table. -/
def orderLe (a b : Order) : Prop := a.OrderID ≤ b.OrderID

instance : DecidableRel orderLe := fun a b => by unfold orderLe; infer_instance

/-- Comparison used by `ORDER BY detail_id` on `order_details`. -/
def detailLe (a b : OrderDetail) : Prop := a.DetailID ≤ b.DetailID

instance : DecidableRel detailLe := fun a b => by unfold detailLe; infer_instance

/-- Comparison used by `ORDER BY order_id, detail_id` on `order_details`. -/
def detailLexLe (a b : OrderDetail) : Prop :=
  a.OrderID < b.OrderID ∨ (a.OrderID = b.OrderID ∧ a.DetailID ≤ b.DetailID)

instance : DecidableRel detailLexLe := fun a b => by unfold detailLexLe; infer_instance

/-- Embeds `GetOrdersByDays` (shared by the problem and optimized order
repositories): one query returning the orders of the last `days` days,
ordered by `order_id`.  Second component: number of queries issued. -/
def GetOrdersByDays (db : OrderDB) (days : Int) : List Order × Nat :=
  (List.insertionSort orderLe (db.orders.filter (fun o => db.recent days o.OrderDate)), 1)

/-- Embeds `ProblemOrderRepository.GetDetailsByOrderID`: the per-parent query
of the naive strategy, `WHERE order_id = :1 ORDER BY detail_id`.  The scan
loop builds a possibly-nil slice (`goOfList`).  `db.qfail` injects the
`r.db.Query` failure path, wrapped exactly as the Go code does. -/
def GetDetailsByOrderID (db : OrderDB) (orderID : Int) :
    Except String (Option (List OrderDetail)) × Nat :=
  match db.qfail orderID with
  | some e => (.error ("failed to execute order details query: " ++ e), 1)
  | none =>
    (.ok (goOfList (List.insertionSort detailLe
      (db.order_details.filter (fun d => d.OrderID == orderID)))), 1)

/-- Loop body of `ProblemOrderRepository.GetOrdersWithDetails`: one
`GetDetailsByOrderID` query per order, appending to `var result []...`;
on error it aborts, wrapping the error with the failing order's id
(the Go code returns `nil, err`, modelled by `Except.error`). -/
def naiveOrdersLoop (db : OrderDB) (orders : List Order)
    (acc : Option (List OrderWithDetails)) :
    Except String (Option (List OrderWithDetails)) × Nat :=
  match orders with
  | [] => (.ok acc, 0)
  | o :: rest =>
    let q := GetDetailsByOrderID db o.OrderID
    match q.1 with
    | .error e =>
      (.error ("failed to get details for order " ++ toString o.OrderID ++ ": " ++ e), q.2)
    | .ok ds =>
      let r := naiveOrdersLoop db rest (goAppend1 acc { Order := o, Details := ds })
      (r.1, q.2 + r.2)

/-- Embeds `ProblemOrderRepository.GetOrdersWithDetails` (naive N+1
strategy). -/
def GetOrdersWithDetails (db : OrderDB) (days : Int) :
    Except String (Option (List OrderWithDetails)) × Nat :=
  let p := GetOrdersByDays db days
  let r := naiveOrdersLoop db p.1 none
  (r.1, p.2 + r.2)

/-- Result rows of the LEFT JOIN query of `GetOrdersWithDetailsJoin`,
ordered by `o.order_id, od.detail_id`: for each order (ascending), one row
per matching detail (ascending), or a single row with NULL detail columns
when the order has no details. -/
def ordersJoinRows (db : OrderDB) (days : Int) : List (Order × Option OrderDetail) :=
  (GetOrdersByDays db days).1.flatMap (fun o =>
    let ds := List.insertionSort detailLe
      (db.order_details.filter (fun d => d.OrderID == o.OrderID))
    if ds.isEmpty then [(o, none)] else ds.map (fun d => (o, some d)))

/-- One iteration of the row-scan loop of `GetOrdersWithDetailsJoin` on the
Go map `orderMap`, modelled as an insertion-ordered association list:
an unseen order id gets a fresh entry with `Details := some []` (Go:
`[]models.OrderDetail{}`); a non-NULL detail is appended to its order's
entry, with `OrderID` taken from the joined order row. -/
def joinStep (m : List (Int × OrderWithDetails)) (row : Order × Option OrderDetail) :
    List (Int × OrderWithDetails) :=
  let o := row.1
  let m1 := if m.any (fun p => p.1 == o.OrderID) then m
    else m ++ [(o.OrderID,
      { Order := o, Details := some ([] : List OrderDetail) })]
  match row.2 with
  | none => m1
  | some d =>
    m1.map (fun p =>
      if p.1 == o.OrderID then
        (p.1, { p.2 with Details := goAppend1 p.2.Details { d with OrderID := o.OrderID } })
      else p)

/-- Content of the Go map `orderMap` after the scan loop of
`GetOrdersWithDetailsJoin`, keyed in first-insertion order. -/
def joinMapOf (db : OrderDB) (days : Int) : List (Int × OrderWithDetails) :=
  (ordersJoinRows db days).foldl joinStep []

/-- States that `iter` is a possible iteration order of the Go map
`orderMap`: Go randomizes map iteration, so exactly the permutations of the
key set are possible. -/
def IsMapIterOrder (db : OrderDB) (days : Int) (iter : List Int) : Prop :=
  iter.Perm ((joinMapOf db days).map Prod.fst)

/-- Embeds `OptimizedOrderRepository.GetOrdersWithDetailsJoin`: one JOIN
query, map-grouping, then `for _, order := range orderMap` appending to a
`make(..., 0, len(orderMap))` slice — the output order is the map iteration
order `iter`. -/
def GetOrdersWithDetailsJoin (db : OrderDB) (days : Int) (iter : List Int) :
    Option (List OrderWithDetails) × Nat :=
  (some (iter.filterMap (fun k => List.lookup k (joinMapOf db days))), 1)

/-- Embeds `OptimizedOrderRepository.GetDetailsByOrderIDs`: with an empty id
list it returns immediately without a query; otherwise one IN-clause query
`WHERE order_id IN (...) ORDER BY order_id, detail_id`. -/
def GetDetailsByOrderIDs (db : OrderDB) (orderIDs : List Int) :
    List OrderDetail × Nat :=
  match orderIDs with
  | [] => ([], 0)
  | _ :: _ =>
    (List.insertionSort detailLexLe
      (db.order_details.filter (fun d => orderIDs.contains d.OrderID)), 1)

/-- One iteration of the grouping loop of `GetOrdersWithDetailsBatch`
(`detailsByOrderID[d.OrderID] = append(..., d)`), on an insertion-ordered
association list. -/
def groupAdd (m : List (Int × List OrderDetail)) (d : OrderDetail) :
    List (Int × List OrderDetail) :=
  if m.any (fun p => p.1 == d.OrderID) then
    m.map (fun p => if p.1 == d.OrderID then (p.1, p.2 ++ [d]) else p)
  else m ++ [(d.OrderID, [d])]

/-- Content of the Go map `detailsByOrderID` of `GetOrdersWithDetailsBatch`. -/
def groupDetails (l : List OrderDetail) : List (Int × List OrderDetail) :=
  l.foldl groupAdd []

/-- Steps 2-5 of `GetOrdersWithDetailsBatch` given the fetched orders:
short-circuit on zero orders (returning the non-nil `[]models.OrderWithDetails{}`
and issuing no further query); otherwise fetch all details with one IN-clause
query, group them, and attach groups in the orders' original order, replacing
a missing (nil) group by an empty non-nil slice. -/
def batchAssemble (db : OrderDB) (orders : List Order) :
    Option (List OrderWithDetails) × Nat :=
  match orders with
  | [] => (some [], 0)
  | o :: rest =>
    let ids := (o :: rest).map (fun x => x.OrderID)
    let q := GetDetailsByOrderIDs db ids
    let g := groupDetails q.1
    (some ((o :: rest).map (fun ord =>
      { Order := ord,
        Details := match List.lookup ord.OrderID g with
          | none => some ([] : List OrderDetail)
          | some ds => some ds })), q.2)

/-- Embeds `OptimizedOrderRepository.GetOrdersWithDetailsBatch`. -/
def GetOrdersWithDetailsBatch (db : OrderDB) (days : Int) :
    Option (List OrderWithDetails) × Nat :=
  let p := GetOrdersByDays db days
  let r := batchAssemble db p.1
  (r.1, p.2 + r.2)

/-- Row of the `employees` table / Go `models.Employee`.  `department_id` and
`salary` are nullable in the DDL but scanned into non-pointer Go fields; the
model carries them non-null (`Salary` in cents), matching the data the demo
loads. -/
structure Employee where
  EmployeeID : Int
  FirstName : String
  LastName : String
  Email : String
  DepartmentID : Int
  HireDate : String
  Salary : Int
deriving DecidableEq

/-- Row of the `departments` table.  `location` is nullable
(`location VARCHAR2(100)` with no NOT NULL constraint), `department_name` is
NOT NULL. -/
structure DeptRow where
  department_id : Int
  department_name : String
  location : Option String
deriving DecidableEq

/-- Go `models.Department` (all fields non-pointer). -/
structure Department where
  DepartmentID : Int
  DepartmentName : String
  Location : String
deriving DecidableEq

/-- Go `models.EmployeeWithDepartment`; `Department` is a possibly-nil
pointer. -/
structure EmployeeWithDepartment where
  Employee : Employee
  Department : Option Department
deriving DecidableEq

/-- Database state seen by the employee repositories. -/
structure EmpDB where
  employees : List Employee
  departments : List DeptRow

/-- Comparison used by `ORDER BY employee_id`. -/
def empLe (a b : Employee) : Prop := a.EmployeeID ≤ b.EmployeeID

instance : DecidableRel empLe := fun a b => by unfold empLe; infer_instance

/-- Error text of a Go `Rows.Scan`/`Row.Scan` converting a NULL
`location` column into a `string` destination. -/
def scanNullLocationMsg : String :=
  "sql: Scan error on column index 2, name \x22LOCATION\x22: converting NULL to string is unsupported"

/-- Embeds `GetAllEmployees` (shared by both employee repositories): one
query, all employees ordered by `employee_id`. -/
def GetAllEmployees (db : EmpDB) : List Employee × Nat :=
  (List.insertionSort empLe db.employees, 1)

/-- Embeds `ProblemEmployeeRepository.GetDepartmentByID`: a `QueryRow` with
`WHERE department_id = :1` (no ORDER BY; the first matching row in table
order is scanned).  `sql.ErrNoRows` is mapped to `(nil, nil)`, i.e.
`.ok none`; scanning a NULL `location` into the Go `string` field fails and
is wrapped as in the Go code. -/
def GetDepartmentByID (db : EmpDB) (departmentID : Int) :
    Except String (Option Department) × Nat :=
  match (db.departments.filter (fun d => d.department_id == departmentID)).head? with
  | none => (.ok none, 1)
  | some r =>
    match r.location with
    | none => (.error ("failed to query department: " ++ scanNullLocationMsg), 1)
    | some loc =>
      (.ok (some { DepartmentID := r.department_id,
                   DepartmentName := r.department_name,
                   Location := loc }), 1)

/-- Loop body of `ProblemEmployeeRepository.GetEmployeesWithDepartment`: one
`GetDepartmentByID` query per employee; on error it aborts, wrapping the
error with the failing employee's id (Go returns `nil, err`). -/
def naiveEmpsLoop (db : EmpDB) (emps : List Employee)
    (acc : Option (List EmployeeWithDepartment)) :
    Except String (Option (List EmployeeWithDepartment)) × Nat :=
  match emps with
  | [] => (.ok acc, 0)
  | x :: rest =>
    let q := GetDepartmentByID db x.DepartmentID
    match q.1 with
    | .error e =>
      (.error ("failed to get department for employee " ++ toString x.EmployeeID ++ ": " ++ e), q.2)
    | .ok dep =>
      let r := naiveEmpsLoop db rest (goAppend1 acc { Employee := x, Department := dep })
      (r.1, q.2 + r.2)

/-- Embeds `ProblemEmployeeRepository.GetEmployeesWithDepartment` (naive N+1
strategy). -/
def GetEmployeesWithDepartment (db : EmpDB) :
    Except String (Option (List EmployeeWithDepartment)) × Nat :=
  let p := GetAllEmployees db
  let r := naiveEmpsLoop db p.1 none
  (r.1, p.2 + r.2)

/-- Result rows of the LEFT JOIN query of `GetEmployeesWithDepartmentJoin`,
ordered by `e.employee_id`: for each employee, one row per matching
department row (table order; `department_id` is the primary key, so at most
one in a well-formed database), or a single row with NULL department columns
when none matches. -/
def empJoinRows (db : EmpDB) : List (Employee × Option DeptRow) :=
  (GetAllEmployees db).1.flatMap (fun e =>
    let ms := db.departments.filter (fun d => d.department_id == e.DepartmentID)
    if ms.isEmpty then [(e, none)] else ms.map (fun d => (e, some d)))

/-- Row-scan step of `GetEmployeesWithDepartmentJoin` (source lines 236-264):
`department_name` and `location` are scanned into `*string`; a `Department`
is attached exactly when both are non-nil, and its `DepartmentID` is copied
from the employee row's `department_id` column, not from the departments
table. -/
def scanEmpJoinRow (e : Employee) (dr : Option DeptRow) : EmployeeWithDepartment :=
  let departmentName : Option String := dr.map (fun d => d.department_name)
  let location : Option String := dr.bind (fun d => d.location)
  { Employee := e,
    Department :=
      match departmentName, location with
      | some nm, some loc =>
        some { DepartmentID := e.DepartmentID, DepartmentName := nm, Location := loc }
      | _, _ => none }

/-- Embeds `OptimizedEmployeeRepository.GetEmployeesWithDepartmentJoin`: one
JOIN query, scanned row by row into a `var result []...` slice. -/
def GetEmployeesWithDepartmentJoin (db : EmpDB) :
    Option (List EmployeeWithDepartment) × Nat :=
  (goOfList ((empJoinRows db).map (fun r => scanEmpJoinRow r.1 r.2)), 1)

/-- Distinct department ids extracted by step 2 of
`GetEmployeesWithDepartmentBatch` via the set `departmentIDSet`.  The Go map
iteration order is unspecified; the model fixes one enumeration
(`List.dedup`), and only order-insensitive properties (membership,
distinctness, length) are claimed of it. -/
def batchDeptIDs (emps : List Employee) : List Int :=
  (emps.map (fun e => e.DepartmentID)).dedup

/-- Scan loop of `GetDepartmentsByIDs`: aborts at the first row whose NULL
`location` cannot be converted to `string`, wrapped as in the Go code. -/
def scanDepts : List DeptRow → Except String (List Department)
  | [] => .ok []
  | r :: rs =>
    match r.location with
    | none => .error ("failed to scan department row: " ++ scanNullLocationMsg)
    | some loc =>
      match scanDepts rs with
      | .error e => .error e
      | .ok ds =>
        .ok ({ DepartmentID := r.department_id,
               DepartmentName := r.department_name,
               Location := loc } :: ds)

/-- Embeds `OptimizedEmployeeRepository.GetDepartmentsByIDs`: with an empty
id list it returns immediately without a query; otherwise one IN-clause
query (no ORDER BY; rows in table order). -/
def GetDepartmentsByIDs (db : EmpDB) (departmentIDs : List Int) :
    Except String (List Department) × Nat :=
  match departmentIDs with
  | [] => (.ok [], 0)
  | _ :: _ =>
    (scanDepts (db.departments.filter (fun d => departmentIDs.contains d.department_id)), 1)

/-- Lookup in the Go map `departmentMap` built by
`departmentMap[dept.DepartmentID] = dept` (last write wins). -/
def deptFind (depts : List Department) (k : Int) : Option Department :=
  depts.reverse.find? (fun d => d.DepartmentID == k)

/-- Steps 2-5 of `GetEmployeesWithDepartmentBatch` given the fetched
employees: short-circuit on zero employees (returning the non-nil
`[]models.EmployeeWithDepartment{}` and issuing no further query);
otherwise fetch the departments of the deduplicated id set in one IN-clause
query and attach by map lookup, leaving `Department` nil on a miss. -/
def empBatchAssemble (db : EmpDB) (emps : List Employee) :
    Except String (Option (List EmployeeWithDepartment)) × Nat :=
  match emps with
  | [] => (.ok (some []), 0)
  | e :: rest =>
    let ids := batchDeptIDs (e :: rest)
    let q := GetDepartmentsByIDs db ids
    match q.1 with
    | .error msg => (.error ("failed to get departments: " ++ msg), q.2)
    | .ok depts =>
      (.ok (some ((e :: rest).map (fun emp =>
        { Employee := emp, Department := deptFind depts emp.DepartmentID }))), q.2)

/-- Embeds `OptimizedEmployeeRepository.GetEmployeesWithDepartmentBatch`. -/
def GetEmployeesWithDepartmentBatch (db : EmpDB) :
    Except String (Option (List EmployeeWithDepartment)) × Nat :=
  let p := GetAllEmployees db
  let r := empBatchAssemble db p.1
  (r.1, p.2 + r.2)

/-- Decidable success test on an `Except` result (Go: returned error is nil). -/
def exceptOk {ε α : Type} : Except ε α → Bool
  | .ok _ => true
  | .error _ => false

/-- Aggregates carried by an order-strategy result (empty on the error
path, which returns a nil slice in Go). -/
def orderAggs : Except String (Option (List OrderWithDetails)) → List OrderWithDetails
  | .ok s => goToList s
  | .error _ => []

/-- Aggregates carried by an employee-strategy result. -/
def empAggs : Except String (Option (List EmployeeWithDepartment)) → List EmployeeWithDepartment
  | .ok s => goToList s
  | .error _ => []

/-- Element-wise equality of aggregate sequences as used by the spec: same
parents in the same order and, within each parent, the same children in the
same order (nil and empty child slices both read as zero children). -/
def aggsEqElementwise (xs ys : List OrderWithDetails) : Prop :=
  xs.map (fun a => a.Order) = ys.map (fun a => a.Order) ∧
  xs.map (fun a => goToList a.Details) = ys.map (fun a => goToList a.Details)

instance (xs ys : List OrderWithDetails) : Decidable (aggsEqElementwise xs ys) := by
  unfold aggsEqElementwise; infer_instance

/-! Concrete databases used to instantiate the theorems below. -/

/-- Date predicate of a database whose orders all fall in the queried window. -/
def alwaysRecent : Int → String → Bool := fun _ _ => true

/-- Fault-free driver: no query failure for any order id. -/
def noQFail : Int → Option String := fun _ => none

/-- Sample order 1. -/
def exOrder1 : Order := { OrderID := 1, CustomerID := 100, OrderDate := "2025-09-20", TotalAmount := 5000 }

/-- Sample order 2. -/
def exOrder2 : Order := { OrderID := 2, CustomerID := 101, OrderDate := "2025-09-21", TotalAmount := 7000 }

/-- Sample order 3. -/
def exOrder3 : Order := { OrderID := 3, CustomerID := 102, OrderDate := "2025-09-22", TotalAmount := 9000 }

/-- Sample detail a (order 1). -/
def exDetailA : OrderDetail := { DetailID := 10, OrderID := 1, ProductID := 500, Quantity := 2, UnitPrice := 1200 }

/-- Sample detail b (order 1). -/
def exDetailB : OrderDetail := { DetailID := 11, OrderID := 1, ProductID := 501, Quantity := 1, UnitPrice := 800 }

/-- Sample detail c (order 3). -/
def exDetailC : OrderDetail := { DetailID := 12, OrderID := 3, ProductID := 502, Quantity := 3, UnitPrice := 300 }

/-- Two orders, no details, fault-free. -/
def dbTwoOrders : OrderDB :=
  { orders := [exOrder1, exOrder2], order_details := [],
    recent := alwaysRecent, qfail := noQFail }

/-- The scenario of spec section 8: parents 1, 2, 3; children a, b on
parent 1 and c on parent 3. -/
def dbScenario : OrderDB :=
  { orders := [exOrder1, exOrder2, exOrder3],
    order_details := [exDetailA, exDetailB, exDetailC],
    recent := alwaysRecent, qfail := noQFail }

/-- One order with zero detail rows, fault-free. -/
def dbOneOrder : OrderDB :=
  { orders := [exOrder1], order_details := [],
    recent := alwaysRecent, qfail := noQFail }

/-- Driver failure for the per-order details query bound to order id 2. -/
def qfailOn2 : Int → Option String :=
  fun k => if k = 2 then some "ORA-03113: end-of-file on communication channel" else none

/-- Two orders where the per-order details query fails for order 2. -/
def dbQFail : OrderDB :=
  { orders := [exOrder1, exOrder2], order_details := [],
    recent := alwaysRecent, qfail := qfailOn2 }

/-- Sample department 1 with a non-NULL location. -/
def exDept1 : DeptRow := { department_id := 1, department_name := "Sales", location := some "Tokyo" }

/-- Sample department 2 whose location column is NULL. -/
def exDeptNullLoc : DeptRow := { department_id := 2, department_name := "Dev", location := none }

/-- Sample employee in department 1. -/
def exEmp1 : Employee :=
  { EmployeeID := 1, FirstName := "Taro", LastName := "Tanaka", Email := "taro@example.com",
    DepartmentID := 1, HireDate := "2020-04-01", Salary := 500 }

/-- Sample employee in department 2 (the NULL-location department). -/
def exEmp2 : Employee :=
  { EmployeeID := 2, FirstName := "Hanako", LastName := "Sato", Email := "hanako@example.com",
    DepartmentID := 2, HireDate := "2021-04-01", Salary := 480 }

/-- Sample employee whose `department_id` 99 matches no department row. -/
def exEmp3 : Employee :=
  { EmployeeID := 3, FirstName := "Jiro", LastName := "Suzuki", Email := "jiro@example.com",
    DepartmentID := 99, HireDate := "2019-04-01", Salary := 520 }

/-- Employees 1 and 3 over a department table containing only department 1
(all locations non-NULL); employee 3's department is missing. -/
def exEmpDB : EmpDB := { employees := [exEmp1, exEmp3], departments := [exDept1] }

/-- Employees 1 and 2 over departments 1 and 2, where department 2 has a
NULL location. -/
def exEmpDBNull : EmpDB :=
  { employees := [exEmp1, exEmp2], departments := [exDept1, exDeptNullLoc] }

/-- Orders database with an empty orders table. -/
def dbNoOrders : OrderDB :=
  { orders := [], order_details := [exDetailA],
    recent := alwaysRecent, qfail := noQFail }

/-- Employee database with an empty employees table. -/
def dbNoEmps : EmpDB := { employees := [], departments := [exDept1] }

/-- Iterated Go `append` of a list of elements onto a possibly-nil slice. -/
def goAppendAll {α : Type} (acc : Option (List α)) (xs : List α) : Option (List α) :=
  match xs with
  | [] => acc
  | x :: l => some (goToList acc ++ (x :: l))

/-- Denotation of `GetDepartmentByID` on a database whose department rows all
have non-NULL locations: the first matching row as a `Department`, or `none`
when no row matches. -/
def deptLookupModel (db : EmpDB) (k : Int) : Option Department :=
  match (db.departments.filter (fun d => d.department_id == k)).head? with
  | none => none
  | some r =>
    match r.location with
    | none => none
    | some loc =>
      some { DepartmentID := r.department_id, DepartmentName := r.department_name,
             Location := loc }

end NPlusOneDemo

namespace NPlusOneDemo

/-! Helper lemmas shared by the claim theorems. -/

theorem goToList_goOfList {α : Type} (l : List α) : goToList (goOfList l) = l := by
  cases l <;> rfl

theorem goAppendAll_cons {α : Type} (acc : Option (List α)) (x : α) (xs : List α) :
    goAppendAll acc (x :: xs) = goAppendAll (goAppend1 acc x) xs := by
  cases xs <;> simp [goAppendAll, goAppend1, goToList]

theorem goAppendAll_none {α : Type} (xs : List α) : goAppendAll none xs = goOfList xs := by
  cases xs <;> rfl

theorem lookup_snd_mem {β : Type} (k : Int) (m : List (Int × β)) (a : β)
    (h : List.lookup k m = some a) : a ∈ m.map Prod.snd := by
  induction m with
  | nil => simp [List.lookup] at h
  | cons p rest ih =>
    obtain ⟨k1, v1⟩ := p
    rw [List.lookup] at h
    by_cases hk : (k == k1) = true
    · rw [hk] at h
      simp at h
      subst h
      simp
    · rw [Bool.not_eq_true] at hk
      rw [hk] at h
      simp only [List.map_cons, List.mem_cons]
      exact Or.inr (ih h)

theorem joinStep_details_ne_none (m : List (Int × OrderWithDetails))
    (row : Order × Option OrderDetail)
    (h : ∀ p ∈ m, p.2.Details ≠ none) :
    ∀ p ∈ joinStep m row, p.2.Details ≠ none := by
  intro p hp
  unfold joinStep at hp
  have h1 : ∀ q ∈ (if m.any (fun p => p.1 == row.1.OrderID) then m
      else m ++ [(row.1.OrderID, { Order := row.1, Details := some ([] : List OrderDetail) })]),
      q.2.Details ≠ none := by
    split
    · exact h
    · intro q hq
      rcases List.mem_append.mp hq with hq | hq
      · exact h q hq
      · simp at hq
        rw [hq]
        simp
  cases hrow : row.2 with
  | none => rw [hrow] at hp; exact h1 p hp
  | some d =>
    rw [hrow] at hp
    obtain ⟨q, hq, hpq⟩ := List.mem_map.mp hp
    rw [← hpq]
    split
    · simp [goAppend1]
    · exact h1 q hq

theorem foldl_joinStep_inv (rows : List (Order × Option OrderDetail)) :
    ∀ m, (∀ p ∈ m, p.2.Details ≠ none) →
      ∀ p ∈ rows.foldl joinStep m, p.2.Details ≠ none := by
  induction rows with
  | nil => intro m h; exact h
  | cons r rest ih => intro m h; exact ih _ (joinStep_details_ne_none m r h)

theorem naiveOrdersLoop_count (db : OrderDB) (l : List Order)
    (h : ∀ o ∈ l, db.qfail o.OrderID = none) :
    ∀ acc, (naiveOrdersLoop db l acc).2 = l.length := by
  induction l with
  | nil => intro acc; rfl
  | cons o rest ih =>
    intro acc
    have ho : db.qfail o.OrderID = none := h o (List.mem_cons_self o rest)
    simp only [naiveOrdersLoop, GetDetailsByOrderID, ho]
    simp only [List.length_cons, ih (fun x hx => h x (List.mem_cons_of_mem o hx))]
    omega

theorem getDeptByID_wf (db : EmpDB) (hwf : ∀ d ∈ db.departments, d.location ≠ none) (k : Int) :
    (GetDepartmentByID db k).1 = .ok (deptLookupModel db k) := by
  cases hfl : db.departments.filter (fun d => d.department_id == k) with
  | nil => simp [GetDepartmentByID, deptLookupModel, hfl]
  | cons r rs =>
    have hr : r ∈ db.departments := by
      have hmem : r ∈ db.departments.filter (fun d => d.department_id == k) := by
        rw [hfl]; exact List.mem_cons_self r rs
      exact (List.mem_filter.mp hmem).1
    cases hl : r.location with
    | none => exact absurd hl (hwf r hr)
    | some loc => simp [GetDepartmentByID, deptLookupModel, hfl, hl]

theorem naiveEmpsLoop_ok (db : EmpDB) (hwf : ∀ d ∈ db.departments, d.location ≠ none) :
    ∀ (l : List Employee) (acc : Option (List EmployeeWithDepartment)),
      (naiveEmpsLoop db l acc).1 =
        .ok (goAppendAll acc (l.map (fun x =>
          ({ Employee := x, Department := deptLookupModel db x.DepartmentID } :
            EmployeeWithDepartment)))) := by
  intro l
  induction l with
  | nil => intro acc; rfl
  | cons x rest ih =>
    intro acc
    simp only [naiveEmpsLoop, getDeptByID_wf db hwf x.DepartmentID]
    rw [List.map_cons, goAppendAll_cons]
    exact ih _

theorem naiveEmps_wf (db : EmpDB) (hwf : ∀ d ∈ db.departments, d.location ≠ none) :
    (GetEmployeesWithDepartment db).1 =
      .ok (goOfList ((GetAllEmployees db).1.map (fun x =>
        ({ Employee := x, Department := deptLookupModel db x.DepartmentID } :
          EmployeeWithDepartment)))) := by
  simp only [GetEmployeesWithDepartment, naiveEmpsLoop_ok db hwf, goAppendAll_none]

theorem scanDepts_ok (l : List DeptRow) (h : ∀ r ∈ l, r.location ≠ none) :
    ∃ ds, scanDepts l = .ok ds ∧ ∀ d ∈ ds, ∃ r ∈ l, d.DepartmentID = r.department_id := by
  induction l with
  | nil => exact ⟨[], rfl, by simp⟩
  | cons r rs ih =>
    cases hl : r.location with
    | none => exact absurd hl (h r (List.mem_cons_self r rs))
    | some loc =>
      obtain ⟨ds, hds, hmem⟩ := ih (fun x hx => h x (List.mem_cons_of_mem r hx))
      refine ⟨(⟨r.department_id, r.department_name, loc⟩ : Department) :: ds, ?_, ?_⟩
      · simp [scanDepts, hl, hds]
      intro d hd
      rcases List.mem_cons.mp hd with hd | hd
      · exact ⟨r, List.mem_cons_self r rs, by rw [hd]⟩
      · obtain ⟨r2, hr2, hid⟩ := hmem d hd
        exact ⟨r2, List.mem_cons_of_mem r hr2, hid⟩

theorem naiveOrdersLoop_fail (db : OrderDB) (o : Order) (e : String)
    (hf : db.qfail o.OrderID = some e) (l2 : List Order) :
    ∀ l1 : List Order, (∀ x ∈ l1, db.qfail x.OrderID = none) →
      ∀ acc, naiveOrdersLoop db (l1 ++ o :: l2) acc =
        (.error ("failed to get details for order " ++ toString o.OrderID ++ ": " ++
          ("failed to execute order details query: " ++ e)), l1.length + 1) := by
  intro l1
  induction l1 with
  | nil =>
    intro _ acc
    simp [naiveOrdersLoop, GetDetailsByOrderID, hf]
  | cons x xs ih =>
    intro h acc
    have hx : db.qfail x.OrderID = none := h x (List.mem_cons_self x xs)
    simp only [List.cons_append, naiveOrdersLoop, GetDetailsByOrderID, hx]
    simp only [List.append_eq]
    rw [ih (fun y hy => h y (List.mem_cons_of_mem x hy)) _]
    simp only [Prod.mk.injEq, List.length_cons]
    exact ⟨trivial, by omega⟩

theorem naiveEmpsLoop_fail (db : EmpDB) (x : Employee) (e2 : String)
    (hf : (GetDepartmentByID db x.DepartmentID).1 = .error e2) (m2 : List Employee) :
    ∀ m1 : List Employee, (∀ y ∈ m1, exceptOk (GetDepartmentByID db y.DepartmentID).1 = true) →
      ∀ acc, (naiveEmpsLoop db (m1 ++ x :: m2) acc).1 =
        .error ("failed to get department for employee " ++ toString x.EmployeeID ++ ": " ++ e2) := by
  intro m1
  induction m1 with
  | nil =>
    intro _ acc
    simp [naiveEmpsLoop, hf]
  | cons y ys ih =>
    intro h acc
    have hy := h y (List.mem_cons_self y ys)
    cases hq : (GetDepartmentByID db y.DepartmentID).1 with
    | error err => rw [hq] at hy; simp [exceptOk] at hy
    | ok dep =>
      simp only [List.cons_append, naiveEmpsLoop, hq]
      simp only [List.append_eq]
      exact ih (fun z hz => h z (List.mem_cons_of_mem y hz)) _

/-- C1: the join strategy's output order is NOT deterministic: on a database
with two recent orders (ids 1 and 2) and no details, both `[1, 2]` and
`[2, 1]` are possible iteration orders of the Go map `orderMap`, and they
yield different output sequences; in particular the `[2, 1]` iteration
returns the aggregates with parent keys in the order `[2, 1]`, which is
neither insertion (first-seen) order nor ascending parent-key order.  This
refutes the claim that the returned sequence is deterministically ordered
independent of hash-map iteration order. -/
theorem joinOutputDependsOnMapIterationOrder :
    IsMapIterOrder dbTwoOrders 30 [1, 2] ∧
    IsMapIterOrder dbTwoOrders 30 [2, 1] ∧
    (goToList (GetOrdersWithDetailsJoin dbTwoOrders 30 [2, 1]).1).map
      (fun a => a.Order.OrderID) = [2, 1] ∧
    (GetOrdersWithDetailsJoin dbTwoOrders 30 [2, 1]).1 ≠
      (GetOrdersWithDetailsJoin dbTwoOrders 30 [1, 2]).1 := by
  unfold IsMapIterOrder
  decide

/-- C2: on the spec's section-8 scenario database (parents 1, 2, 3;
children a, b on parent 1 and c on parent 3) the naive and batch strategies
return element-wise equal aggregate sequences, but the join strategy under
the possible map-iteration order `[2, 1, 3]` does not: the three strategies
are not always element-wise equal, because the join strategy's parent order
follows the Go map iteration order.  This refutes the claim as stated. -/
theorem strategiesDisagreeUnderMapIteration :
    IsMapIterOrder dbScenario 30 [2, 1, 3] ∧
    aggsEqElementwise (orderAggs (GetOrdersWithDetails dbScenario 30).1)
      (goToList (GetOrdersWithDetailsBatch dbScenario 30).1) ∧
    ¬ aggsEqElementwise (goToList (GetOrdersWithDetailsJoin dbScenario 30 [2, 1, 3]).1)
      (goToList (GetOrdersWithDetailsBatch dbScenario 30).1) := by
  unfold IsMapIterOrder
  decide

/-- C5 counterexample: the naive strategy run on a database with one recent
order and zero detail rows succeeds and returns that order's aggregate with
`Details` equal to the nil slice (`none`), because
`GetDetailsByOrderID` returns the nil slice its scan loop never appended to
and `GetOrdersWithDetails` stores it unconverted.  This refutes the claim
that no strategy ever returns a nil `Details`. -/
theorem naiveDetailsNilCounterexample :
    (orderAggs (GetOrdersWithDetails dbOneOrder 30).1).map (fun a => a.Details) =
      [none] := by
  decide

/-- C3: a batch strategy whose first query matches zero parents returns the
non-nil empty slice and issues exactly one query, for both the order domain
(`GetOrdersWithDetailsBatch`) and the employee domain
(`GetEmployeesWithDepartmentBatch`). -/
theorem batchZeroParentsOneQuery (dbO : OrderDB) (days : Int) (dbE : EmpDB)
    (hO : (GetOrdersByDays dbO days).1 = [])
    (hE : (GetAllEmployees dbE).1 = []) :
    GetOrdersWithDetailsBatch dbO days = (some [], 1) ∧
    GetEmployeesWithDepartmentBatch dbE = (.ok (some []), 1) := by
  constructor
  · simp only [GetOrdersWithDetailsBatch, hO, batchAssemble]
    rfl
  · simp only [GetEmployeesWithDepartmentBatch, hE, empBatchAssemble]
    rfl

/-- Witness for C3 at concrete databases with empty parent tables. -/
theorem batchZeroParentsOneQuery_witness :
    GetOrdersWithDetailsBatch dbNoOrders 30 = (some [], 1) ∧
    GetEmployeesWithDepartmentBatch dbNoEmps = (.ok (some []), 1) :=
  batchZeroParentsOneQuery dbNoOrders 30 dbNoEmps rfl rfl

/-- C4: over any database and any fault-free run (no driver failure on the
orders returned by the parent query), the naive strategy issues
`1 + |parents|` queries, the join strategy issues exactly 1 query, and the
batch strategy issues 2 queries when there is at least one parent and 1
query when there is none. -/
theorem strategyQueryCounts (db : OrderDB) (days : Int) (iter : List Int)
    (hok : ∀ o ∈ (GetOrdersByDays db days).1, db.qfail o.OrderID = none) :
    (GetOrdersWithDetails db days).2 = 1 + ((GetOrdersByDays db days).1).length ∧
    (GetOrdersWithDetailsJoin db days iter).2 = 1 ∧
    (GetOrdersWithDetailsBatch db days).2 =
      (if ((GetOrdersByDays db days).1).length = 0 then 1 else 2) := by
  refine ⟨?_, rfl, ?_⟩
  · simp only [GetOrdersWithDetails]
    rw [naiveOrdersLoop_count db _ hok]
    simp [GetOrdersByDays]
  · cases horders : (GetOrdersByDays db days).1 with
    | nil => simp only [GetOrdersWithDetailsBatch, horders, batchAssemble, List.length_nil]
             rfl
    | cons o rest =>
      simp only [GetOrdersWithDetailsBatch, horders, batchAssemble, List.map_cons,
        GetDetailsByOrderIDs, List.length_cons]
      simp [GetOrdersByDays]

/-- Witness for C4 at the scenario database: 4 naive queries for 3 parents,
1 join query, 2 batch queries. -/
theorem strategyQueryCounts_witness :
    (GetOrdersWithDetails dbScenario 30).2 = 1 + ((GetOrdersByDays dbScenario 30).1).length ∧
    (GetOrdersWithDetailsJoin dbScenario 30 [1, 2, 3]).2 = 1 ∧
    (GetOrdersWithDetailsBatch dbScenario 30).2 =
      (if ((GetOrdersByDays dbScenario 30).1).length = 0 then 1 else 2) :=
  strategyQueryCounts dbScenario 30 [1, 2, 3] (by decide)

/-- C7: for every non-empty employee list, the id list used by the batch
strategy's second query (`batchDeptIDs`, the enumeration of the Go set
`departmentIDSet`) contains each distinct `department_id` exactly once: it
has no duplicates, contains exactly the department ids of the employees,
its length is at most the employee count, and its length equals the
employee count exactly when no two employees share a department id. -/
theorem batchSecondQueryKeysDeduplicated (emps : List Employee) (hne : emps ≠ []) :
    (batchDeptIDs emps).Nodup ∧
    (∀ k : Int, k ∈ batchDeptIDs emps ↔ k ∈ emps.map (fun e => e.DepartmentID)) ∧
    (batchDeptIDs emps).length ≤ emps.length ∧
    ((batchDeptIDs emps).length = emps.length ↔
      (emps.map (fun e => e.DepartmentID)).Nodup) := by
  have _hne := hne
  refine ⟨List.nodup_dedup _, fun k => List.mem_dedup, ?_, ?_⟩
  · calc (batchDeptIDs emps).length ≤ (emps.map (fun e => e.DepartmentID)).length :=
          (List.dedup_sublist _).length_le
      _ = emps.length := List.length_map _ _
  · constructor
    · intro h
      have hlen : (batchDeptIDs emps).length = (emps.map (fun e => e.DepartmentID)).length := by
        rw [h, List.length_map]
      have heq : (emps.map (fun e => e.DepartmentID)).dedup = emps.map (fun e => e.DepartmentID) :=
        (List.dedup_sublist _).eq_of_length hlen
      rw [← heq]
      exact List.nodup_dedup _
    · intro h
      rw [batchDeptIDs, List.dedup_eq_self.mpr h, List.length_map]

/-- Witness for C7 at a concrete two-employee list with distinct
department ids. -/
theorem batchSecondQueryKeysDeduplicated_witness :
    (batchDeptIDs [exEmp1, exEmp2]).Nodup ∧
    (∀ k : Int, k ∈ batchDeptIDs [exEmp1, exEmp2] ↔
      k ∈ [exEmp1, exEmp2].map (fun e => e.DepartmentID)) ∧
    (batchDeptIDs [exEmp1, exEmp2]).length ≤ ([exEmp1, exEmp2] : List Employee).length ∧
    ((batchDeptIDs [exEmp1, exEmp2]).length = ([exEmp1, exEmp2] : List Employee).length ↔
      ([exEmp1, exEmp2].map (fun e => e.DepartmentID)).Nodup) :=
  batchSecondQueryKeysDeduplicated [exEmp1, exEmp2] (by decide)

/-- C10: in the employee join strategy, a row's aggregate carries a
`Department` exactly when both the scanned `department_name` and `location`
columns are non-NULL; when it does, the `DepartmentID` is copied from the
employee row's `department_id` column; consequently a matching department
row whose `location` is NULL yields an absent `Department`.  Each such
aggregate is an element of `GetEmployeesWithDepartmentJoin`'s output. -/
theorem empJoinDepartmentAttachment (db : EmpDB) (r : Employee × Option DeptRow)
    (hr : r ∈ empJoinRows db) :
    ((scanEmpJoinRow r.1 r.2).Department ≠ none ↔
      (r.2.map (fun d => d.department_name) ≠ none ∧ r.2.bind (fun d => d.location) ≠ none)) ∧
    (∀ dep, (scanEmpJoinRow r.1 r.2).Department = some dep → dep.DepartmentID = r.1.DepartmentID) ∧
    (∀ d, r.2 = some d → d.location = none → (scanEmpJoinRow r.1 r.2).Department = none) ∧
    scanEmpJoinRow r.1 r.2 ∈ goToList (GetEmployeesWithDepartmentJoin db).1 := by
  obtain ⟨e, dr⟩ := r
  refine ⟨?_, ?_, ?_, ?_⟩
  · cases dr with
    | none => simp [scanEmpJoinRow]
    | some d => cases hl : d.location <;> simp [scanEmpJoinRow, hl]
  · intro dep hdep
    cases dr with
    | none => simp [scanEmpJoinRow] at hdep
    | some d =>
      cases hl : d.location with
      | none => rw [scanEmpJoinRow] at hdep; simp [hl] at hdep
      | some loc =>
        rw [scanEmpJoinRow] at hdep
        simp [hl] at hdep
        rw [← hdep]
  · intro d hd hl
    cases hd
    simp [scanEmpJoinRow, hl]
  · simp only [GetEmployeesWithDepartmentJoin, goToList_goOfList]
    exact List.mem_map_of_mem (fun p => scanEmpJoinRow p.1 p.2) hr

/-- Witness for C10 at the row pairing employee 2 with the NULL-location
department row 2: the scanned aggregate has an absent `Department` and sits
in the join strategy's output. -/
theorem empJoinDepartmentAttachment_witness :
    ((scanEmpJoinRow exEmp2 (some exDeptNullLoc)).Department ≠ none ↔
      ((some exDeptNullLoc).map (fun d => d.department_name) ≠ none ∧
        (some exDeptNullLoc).bind (fun d => d.location) ≠ none)) ∧
    (∀ dep, (scanEmpJoinRow exEmp2 (some exDeptNullLoc)).Department = some dep →
      dep.DepartmentID = exEmp2.DepartmentID) ∧
    (∀ d, some exDeptNullLoc = some d → d.location = none →
      (scanEmpJoinRow exEmp2 (some exDeptNullLoc)).Department = none) ∧
    scanEmpJoinRow exEmp2 (some exDeptNullLoc) ∈
      goToList (GetEmployeesWithDepartmentJoin exEmpDBNull).1 :=
  empJoinDepartmentAttachment exEmpDBNull (exEmp2, some exDeptNullLoc) (by decide)

/-- C5 amended: in the join and batch strategies every returned aggregate's
`Details` slice is non-nil (an order with zero matching detail rows carries
an empty non-nil slice); the naive strategy is excluded, since it stores its
per-order query result unconverted and that result is the nil slice for an
order without details (see the counterexample). -/
theorem joinAndBatchDetailsNeverNil (db : OrderDB) (days : Int) (iter : List Int) :
    (∀ a ∈ goToList (GetOrdersWithDetailsJoin db days iter).1, a.Details ≠ none) ∧
    (∀ a ∈ goToList (GetOrdersWithDetailsBatch db days).1, a.Details ≠ none) := by
  constructor
  · intro a ha
    simp only [GetOrdersWithDetailsJoin, goToList] at ha
    obtain ⟨k, hk, hl⟩ := List.mem_filterMap.mp ha
    have hmem := lookup_snd_mem k _ a hl
    obtain ⟨p, hp, hpa⟩ := List.mem_map.mp hmem
    rw [← hpa]
    exact foldl_joinStep_inv _ [] (by simp) p hp
  · intro a ha
    simp only [GetOrdersWithDetailsBatch] at ha
    cases horders : (GetOrdersByDays db days).1 with
    | nil => rw [horders] at ha; simp [batchAssemble, goToList] at ha
    | cons o rest =>
      rw [horders] at ha
      simp only [batchAssemble, goToList] at ha
      obtain ⟨ord, hord, hoa⟩ := List.mem_map.mp ha
      rw [← hoa]
      cases List.lookup ord.OrderID
        (groupDetails (GetDetailsByOrderIDs db ((o :: rest).map (fun x => x.OrderID))).1) <;>
        simp

/-- Witness for the amended C5 at the scenario database: order 2 has no
details and its aggregate, present in both the join output (under iteration
order `[1, 2, 3]`) and the batch output, has a non-nil `Details`. -/
theorem joinAndBatchDetailsNeverNil_witness :
    ({ Order := exOrder2, Details := some ([] : List OrderDetail) } : OrderWithDetails).Details
        ≠ none ∧
    ({ Order := exOrder2, Details := some ([] : List OrderDetail) } : OrderWithDetails).Details
        ≠ none :=
  ⟨(joinAndBatchDetailsNeverNil dbScenario 30 [1, 2, 3]).1
      { Order := exOrder2, Details := some [] } (by decide),
    (joinAndBatchDetailsNeverNil dbScenario 30 [1, 2, 3]).2
      { Order := exOrder2, Details := some [] } (by decide)⟩

/-- C6: for every employee (of the employee query result) whose
`department_id` matches no department row, over a well-formed department
table (all locations non-NULL, so that unrelated lookups succeed), each of
the three strategies returns without error and contains that employee's
aggregate with an absent (`none`) `Department`: the not-found lookup is
mapped to absence, not failure. -/
theorem missingDepartmentYieldsAbsenceNotError (db : EmpDB)
    (hwf : ∀ d ∈ db.departments, d.location ≠ none)
    (e : Employee) (he : e ∈ (GetAllEmployees db).1)
    (hmiss : ∀ d ∈ db.departments, d.department_id ≠ e.DepartmentID) :
    exceptOk (GetEmployeesWithDepartment db).1 = true ∧
    ({ Employee := e, Department := none } : EmployeeWithDepartment) ∈
      empAggs (GetEmployeesWithDepartment db).1 ∧
    exceptOk (GetEmployeesWithDepartmentBatch db).1 = true ∧
    ({ Employee := e, Department := none } : EmployeeWithDepartment) ∈
      empAggs (GetEmployeesWithDepartmentBatch db).1 ∧
    ({ Employee := e, Department := none } : EmployeeWithDepartment) ∈
      goToList (GetEmployeesWithDepartmentJoin db).1 := by
  have hfl : db.departments.filter (fun d => d.department_id == e.DepartmentID) = [] := by
    rw [List.filter_eq_nil_iff]
    intro d hd
    simpa using hmiss d hd
  have hlook : deptLookupModel db e.DepartmentID = none := by
    simp [deptLookupModel, hfl]
  have hagg : ({ Employee := e, Department := none } : EmployeeWithDepartment) =
      (fun x => ({ Employee := x, Department := deptLookupModel db x.DepartmentID } :
        EmployeeWithDepartment)) e := by
    simp [hlook]
  have hnaive1 : exceptOk (GetEmployeesWithDepartment db).1 = true := by
    rw [naiveEmps_wf db hwf]; rfl
  have hnaive2 : ({ Employee := e, Department := none } : EmployeeWithDepartment) ∈
      empAggs (GetEmployeesWithDepartment db).1 := by
    rw [naiveEmps_wf db hwf]
    show _ ∈ goToList (goOfList _)
    rw [goToList_goOfList, hagg]
    exact List.mem_map_of_mem _ he
  have hbatch : exceptOk (GetEmployeesWithDepartmentBatch db).1 = true ∧
      ({ Employee := e, Department := none } : EmployeeWithDepartment) ∈
        empAggs (GetEmployeesWithDepartmentBatch db).1 := by
    cases hemps : (GetAllEmployees db).1 with
    | nil => rw [hemps] at he; cases he
    | cons h t =>
      rw [hemps] at he
      cases hids : batchDeptIDs (h :: t) with
      | nil =>
        have hres : (GetEmployeesWithDepartmentBatch db).1 =
            .ok (some ((h :: t).map (fun emp =>
              ({ Employee := emp, Department := deptFind [] emp.DepartmentID } :
                EmployeeWithDepartment)))) := by
          simp only [GetEmployeesWithDepartmentBatch, hemps, empBatchAssemble, hids,
            GetDepartmentsByIDs]
        rw [hres]
        refine ⟨rfl, ?_⟩
        show _ ∈ goToList (some _)
        have : ({ Employee := e, Department := none } : EmployeeWithDepartment) =
            (fun emp => ({ Employee := emp, Department := deptFind [] emp.DepartmentID } :
              EmployeeWithDepartment)) e := by
          simp [deptFind]
        rw [this]
        exact List.mem_map_of_mem _ he
      | cons i is =>
        have hwfF : ∀ r ∈ db.departments.filter
            (fun d => (i :: is).contains d.department_id), r.location ≠ none :=
          fun r hr => hwf r (List.mem_filter.mp hr).1
        obtain ⟨ds, hds, hdsmem⟩ := scanDepts_ok _ hwfF
        have hres : (GetEmployeesWithDepartmentBatch db).1 =
            .ok (some ((h :: t).map (fun emp =>
              ({ Employee := emp, Department := deptFind ds emp.DepartmentID } :
                EmployeeWithDepartment)))) := by
          simp only [GetEmployeesWithDepartmentBatch, hemps, empBatchAssemble, hids,
            GetDepartmentsByIDs, hds]
        rw [hres]
        refine ⟨rfl, ?_⟩
        show _ ∈ goToList (some _)
        have hfind : deptFind ds e.DepartmentID = none := by
          rw [deptFind, List.find?_eq_none]
          intro d hd
          rw [List.mem_reverse] at hd
          obtain ⟨r, hr, hid⟩ := hdsmem d hd
          have hne : r.department_id ≠ e.DepartmentID := hmiss r (List.mem_filter.mp hr).1
          simp only [beq_iff_eq, hid]
          exact hne
        have : ({ Employee := e, Department := none } : EmployeeWithDepartment) =
            (fun emp => ({ Employee := emp, Department := deptFind ds emp.DepartmentID } :
              EmployeeWithDepartment)) e := by
          simp [hfind]
        rw [this]
        exact List.mem_map_of_mem _ he
  have hjoin : ({ Employee := e, Department := none } : EmployeeWithDepartment) ∈
      goToList (GetEmployeesWithDepartmentJoin db).1 := by
    have hrow : (e, (none : Option DeptRow)) ∈ empJoinRows db := by
      apply List.mem_flatMap.mpr
      refine ⟨e, he, ?_⟩
      rw [hfl]
      simp
    simp only [GetEmployeesWithDepartmentJoin, goToList_goOfList]
    have : ({ Employee := e, Department := none } : EmployeeWithDepartment) =
        scanEmpJoinRow e none := rfl
    rw [this]
    exact List.mem_map_of_mem (fun p => scanEmpJoinRow p.1 p.2) hrow
  exact ⟨hnaive1, hnaive2, hbatch.1, hbatch.2, hjoin⟩

/-- Witness for C6: employee 3's department id 99 matches no department row
of `exEmpDB`; all three strategies return its aggregate with an absent
`Department` and no error. -/
theorem missingDepartmentYieldsAbsenceNotError_witness :
    exceptOk (GetEmployeesWithDepartment exEmpDB).1 = true ∧
    ({ Employee := exEmp3, Department := none } : EmployeeWithDepartment) ∈
      empAggs (GetEmployeesWithDepartment exEmpDB).1 ∧
    exceptOk (GetEmployeesWithDepartmentBatch exEmpDB).1 = true ∧
    ({ Employee := exEmp3, Department := none } : EmployeeWithDepartment) ∈
      empAggs (GetEmployeesWithDepartmentBatch exEmpDB).1 ∧
    ({ Employee := exEmp3, Department := none } : EmployeeWithDepartment) ∈
      goToList (GetEmployeesWithDepartmentJoin exEmpDB).1 :=
  missingDepartmentYieldsAbsenceNotError exEmpDB (by decide) exEmp3 (by decide) (by decide)

/-- C8: a naive-strategy run whose first failing per-parent lookup occurs
after a prefix of successful lookups aborts with the wrapped error naming
the failing parent, and returns no partial results (the Go functions return
a nil slice with the error; `orderAggs`/`empAggs` of the result is empty).
Stated for both naive strategies: the order domain, with a driver-level
failure of the per-order details query, and the employee domain, with a
scan failure of the per-employee department lookup. -/
theorem naiveAbortsOnLookupFailure (dbO : OrderDB) (days : Int) (l1 : List Order) (o : Order) (l2 : List Order)
    (e : String)
    (hsplit : (GetOrdersByDays dbO days).1 = l1 ++ o :: l2)
    (hpre : ∀ x ∈ l1, dbO.qfail x.OrderID = none)
    (hf : dbO.qfail o.OrderID = some e)
    (dbE : EmpDB) (m1 : List Employee) (x : Employee) (m2 : List Employee) (e2 : String)
    (hsplitE : (GetAllEmployees dbE).1 = m1 ++ x :: m2)
    (hpreE : ∀ y ∈ m1, exceptOk (GetDepartmentByID dbE y.DepartmentID).1 = true)
    (hfE : (GetDepartmentByID dbE x.DepartmentID).1 = .error e2) :
    (GetOrdersWithDetails dbO days).1 =
      .error ("failed to get details for order " ++ toString o.OrderID ++ ": " ++
        ("failed to execute order details query: " ++ e)) ∧
    orderAggs (GetOrdersWithDetails dbO days).1 = [] ∧
    (GetEmployeesWithDepartment dbE).1 =
      .error ("failed to get department for employee " ++ toString x.EmployeeID ++ ": " ++ e2) ∧
    empAggs (GetEmployeesWithDepartment dbE).1 = [] := by
  have hord : (GetOrdersWithDetails dbO days).1 =
      .error ("failed to get details for order " ++ toString o.OrderID ++ ": " ++
        ("failed to execute order details query: " ++ e)) := by
    simp only [GetOrdersWithDetails, hsplit]
    rw [naiveOrdersLoop_fail dbO o e hf l2 l1 hpre none]
  have hemp : (GetEmployeesWithDepartment dbE).1 =
      .error ("failed to get department for employee " ++ toString x.EmployeeID ++ ": " ++ e2) := by
    simp only [GetEmployeesWithDepartment, hsplitE]
    rw [naiveEmpsLoop_fail dbE x e2 hfE m2 m1 hpreE none]
  exact ⟨hord, by rw [hord]; rfl, hemp, by rw [hemp]; rfl⟩

/-- Witness for C8: on `dbQFail` the details query for order 2 fails after
order 1 succeeded, and on `exEmpDBNull` the department lookup for employee 2
fails on the NULL location after employee 1 succeeded; both naive runs
return only the wrapped error. -/
theorem naiveAbortsOnLookupFailure_witness :
    (GetOrdersWithDetails dbQFail 30).1 =
      .error ("failed to get details for order " ++ toString exOrder2.OrderID ++ ": " ++
        ("failed to execute order details query: " ++
          "ORA-03113: end-of-file on communication channel")) ∧
    orderAggs (GetOrdersWithDetails dbQFail 30).1 = [] ∧
    (GetEmployeesWithDepartment exEmpDBNull).1 =
      .error ("failed to get department for employee " ++ toString exEmp2.EmployeeID ++ ": " ++
        ("failed to query department: " ++ scanNullLocationMsg)) ∧
    empAggs (GetEmployeesWithDepartment exEmpDBNull).1 = [] :=
  naiveAbortsOnLookupFailure dbQFail 30 [exOrder1] exOrder2 []
    "ORA-03113: end-of-file on communication channel" (by decide) (by decide) (by decide)
    exEmpDBNull [exEmp1] exEmp2 [] ("failed to query department: " ++ scanNullLocationMsg)
    (by decide) (by decide) rfl

end NPlusOneDemo
